import Mathlib

/-!
# Verification of the trippy-ai planning core

Shallow embedding of the deterministic planning algorithms and the
dispatch/registry machinery of the `trippy-ai` backend
(`backend/app/multi_agent/`), together with proofs of the specified
properties.

Conventions:
* Python floats (USD costs, budgets) are modelled as rationals (`ℚ`).
* A pandas data frame that has already been filtered by city /
  preferences is modelled as a `List` of record structures; the claims
  quantify over the outcome of the filters, so the filters themselves
  need no embedding.
* Python slices `l[a:b]` are modelled by `pySlice`.
-/

namespace TrippyAI

/-! ## Python slice -/

/-- Python slice `l[a:b]` for non-negative `a`, `b` (clamping
semantics). -/
def pySlice (l : List α) (a b : Nat) : List α :=
  (l.drop a).take (b - a)

theorem pySlice_length (l : List α) (a b : Nat) :
    (pySlice l a b).length = min (b - a) (l.length - a) := by
  simp [pySlice]

theorem pySlice_singleton (l : List α) (i : Nat) (h : i < l.length) :
    pySlice l i (i + 1) = [l.get ⟨i, h⟩] := by
  unfold pySlice
  have hd : l.drop i = l.get ⟨i, h⟩ :: l.drop (i + 1) := List.drop_eq_getElem_cons h
  rw [Nat.add_sub_cancel_left, hd]
  rfl

/-! ## Itinerary Planner (`plan_itinerary`, itinerary_tools.py)

`activities_list` is the city/preference-filtered record list; the
bucket logic below is the literal day loop of `plan_itinerary`. -/

/-- The bucket width `activities_per_day = max(1, len // days)`. -/
def activitiesPerDay (n days : Nat) : Nat :=
  max 1 (n / days)

/-- The contiguous slice assigned to `day` (1-based) before backfill:
`activities_list[start_idx : min(start_idx + activities_per_day, len)]`. -/
def rawBucket (l : List α) (days day : Nat) : List α :=
  let apd := activitiesPerDay l.length days
  let start := (day - 1) * apd
  pySlice l start (min (start + apd) l.length)

/-- The activities printed for `day`: the raw slice, or, when it is
empty, the backfill singleton
`activities_list[(day-1) % len : (day-1) % len + 1]`. -/
def dayBucket (l : List α) (days day : Nat) : List α :=
  let raw := rawBucket l days day
  if raw.isEmpty then
    pySlice l ((day - 1) % l.length) ((day - 1) % l.length + 1)
  else raw

/-- All raw buckets, for days `1..days`. -/
def rawBuckets (l : List α) (days : Nat) : List (List α) :=
  (List.range days).map (fun k => rawBucket l days (k + 1))

/-- All printed buckets (with backfill), for days `1..days`. -/
def dayBuckets (l : List α) (days : Nat) : List (List α) :=
  (List.range days).map (fun k => dayBucket l days (k + 1))

example : rawBuckets [0, 1, 2, 3, 4, 5] 3 = [[0, 1], [2, 3], [4, 5]] := by decide

example : rawBuckets [0, 1, 2] 2 = [[0], [1]] := by decide

example : dayBuckets [0, 1] 4 = [[0], [1], [0], [1]] := by decide

theorem activitiesPerDay_pos (n days : Nat) : 1 ≤ activitiesPerDay n days :=
  le_max_left _ _

theorem rawBucket_length (l : List α) (days day : Nat) :
    (rawBucket l days day).length =
      min (activitiesPerDay l.length days)
        (l.length - (day - 1) * activitiesPerDay l.length days) := by
  unfold rawBucket
  rw [pySlice_length]
  omega

theorem rawBucket_eq_nil_iff (l : List α) (days day : Nat) :
    rawBucket l days day = [] ↔
      l.length ≤ (day - 1) * activitiesPerDay l.length days := by
  have h1 := activitiesPerDay_pos l.length days
  rw [← List.length_eq_zero, rawBucket_length]
  omega

theorem join_slices (l : List α) (apd : Nat) :
    ∀ d, ((List.range d).map
        (fun k => pySlice l (k * apd) (min (k * apd + apd) l.length))).flatten =
      l.take (min (d * apd) l.length) := by
  intro d
  induction d with
  | zero => simp
  | succ d ih =>
    rw [List.range_succ, List.map_append, List.flatten_append]
    simp only [List.map_cons, List.map_nil, List.flatten_cons, List.flatten_nil,
      List.append_nil]
    rw [ih]
    have hm : (d + 1) * apd = d * apd + apd := by ring
    by_cases hs : l.length ≤ d * apd
    · have hdrop : l.drop (d * apd) = [] := List.drop_eq_nil_of_le hs
      have h1 : min (d * apd) l.length = l.length := by omega
      have h2 : min ((d + 1) * apd) l.length = l.length := by omega
      rw [h1, h2]
      unfold pySlice
      rw [hdrop]
      simp
    · have h1 : min (d * apd) l.length = d * apd := by omega
      have h2 : min ((d + 1) * apd) l.length =
          d * apd + (min (d * apd + apd) l.length - d * apd) := by omega
      rw [h1, h2, List.take_add]
      rfl

theorem join_rawBuckets (l : List α) (days : Nat) :
    (rawBuckets l days).flatten =
      l.take (min (days * activitiesPerDay l.length days) l.length) := by
  unfold rawBuckets rawBucket
  have he : (fun k => pySlice l ((k + 1 - 1) * activitiesPerDay l.length days)
        (min ((k + 1 - 1) * activitiesPerDay l.length days +
          activitiesPerDay l.length days) l.length)) =
      (fun k => pySlice l (k * activitiesPerDay l.length days)
        (min (k * activitiesPerDay l.length days +
          activitiesPerDay l.length days) l.length)) := by
    funext k
    simp
  rw [he, join_slices]

theorem activitiesPerDay_of_lt {n days : Nat} (h : n < days) :
    activitiesPerDay n days = 1 := by
  unfold activitiesPerDay
  rw [Nat.div_eq_of_lt h]
  simp

theorem activitiesPerDay_of_le {n days : Nat} (h : days ≤ n) (hd : 1 ≤ days) :
    activitiesPerDay n days = n / days := by
  unfold activitiesPerDay
  have : 1 ≤ n / days := (Nat.one_le_div_iff hd).mpr h
  omega

theorem rawBucket_length_full (l : List α) (days day : Nat)
    (hd : 1 ≤ days) (hn : days ≤ l.length) (h1 : 1 ≤ day) (h2 : day ≤ days) :
    (rawBucket l days day).length = activitiesPerDay l.length days := by
  rw [rawBucket_length, activitiesPerDay_of_le hn hd]
  have ha : day * (l.length / days) ≤ days * (l.length / days) :=
    Nat.mul_le_mul_right _ h2
  have hb : days * (l.length / days) ≤ l.length := by
    rw [mul_comm]
    exact Nat.div_mul_le_self l.length days
  have hc : (day - 1) * (l.length / days) + l.length / days =
      day * (l.length / days) := by
    have hday : day - 1 + 1 = day := by omega
    calc (day - 1) * (l.length / days) + l.length / days
        = (day - 1 + 1) * (l.length / days) := by ring
      _ = day * (l.length / days) := by rw [hday]
  omega

theorem rawBucket_length_small (l : List α) (days day : Nat)
    (hn : l.length < days) :
    (rawBucket l days day).length = min 1 (l.length - (day - 1)) := by
  rw [rawBucket_length, activitiesPerDay_of_lt hn]
  omega

/-- C1 (amended): the raw day-buckets, ignoring cyclic backfill, are
contiguous slices of size at most `max 1 ⌊count/days⌋` whose sizes
differ pairwise by at most one and whose concatenation is exactly the
first `min (days * max 1 ⌊count/days⌋) count` filtered activities; when
`days` divides `count`, or the set is smaller than `days`, they
partition the filtered set exactly, but otherwise the trailing
`count % days` activities are left out of every bucket. -/
theorem plan_itinerary_bucket_structure (l : List α) (days : Nat)
    (_hl : l ≠ []) (hdays : 1 ≤ days) :
    (rawBuckets l days).flatten =
        l.take (min (days * activitiesPerDay l.length days) l.length) ∧
    (∀ b ∈ rawBuckets l days, b.length ≤ activitiesPerDay l.length days) ∧
    (∀ b1 ∈ rawBuckets l days, ∀ b2 ∈ rawBuckets l days,
        b1.length ≤ b2.length + 1) ∧
    ((l.length < days ∨ l.length % days = 0) →
        (rawBuckets l days).flatten = l) := by
  have hmem : ∀ b ∈ rawBuckets l days,
      ∃ k, k < days ∧ b = rawBucket l days (k + 1) := by
    intro b hb
    rcases List.mem_map.mp hb with ⟨k, hk, rfl⟩
    exact ⟨k, List.mem_range.mp hk, rfl⟩
  refine ⟨join_rawBuckets l days, ?_, ?_, ?_⟩
  · intro b hb
    rcases hmem b hb with ⟨k, _, rfl⟩
    rw [rawBucket_length]
    omega
  · intro b1 hb1 b2 hb2
    rcases hmem b1 hb1 with ⟨j, hj, rfl⟩
    rcases hmem b2 hb2 with ⟨k, hk, rfl⟩
    by_cases hn : l.length < days
    · rw [rawBucket_length_small l days _ hn, rawBucket_length_small l days _ hn]
      omega
    · push_neg at hn
      rw [rawBucket_length_full l days (j + 1) hdays hn (by omega) (by omega),
        rawBucket_length_full l days (k + 1) hdays hn (by omega) (by omega)]
      omega
  · intro hcase
    rw [join_rawBuckets l days]
    have hfull : l.length ≤ days * activitiesPerDay l.length days := by
      rcases hcase with hlt | hdvd
      · rw [activitiesPerDay_of_lt hlt]
        omega
      · by_cases hlt : l.length < days
        · rw [activitiesPerDay_of_lt hlt]
          omega
        · push_neg at hlt
          rw [activitiesPerDay_of_le hlt hdays]
          have h3 : days * (l.length / days) = l.length := by
            rw [mul_comm]
            exact Nat.div_mul_cancel (Nat.dvd_of_mod_eq_zero hdvd)
          omega
    have : min (days * activitiesPerDay l.length days) l.length = l.length := by
      omega
    rw [this, List.take_length]

/-- C1: counterexample — with 3 filtered activities and `days = 2` the
raw buckets are `[[0], [1]]`: activity `2` is left out of every bucket,
so the buckets do not partition the filtered set. -/
theorem plan_itinerary_partition_counterexample :
    ([0, 1, 2] : List ℕ) ≠ [] ∧ 1 ≤ 2 ∧
    rawBuckets ([0, 1, 2] : List ℕ) 2 = [[0], [1]] ∧
    (2 : ℕ) ∈ ([0, 1, 2] : List ℕ) ∧
    (∀ b ∈ rawBuckets ([0, 1, 2] : List ℕ) 2, (2 : ℕ) ∉ b) := by
  decide

/-- C9: every day of the produced itinerary contains at least one
activity; whenever the raw contiguous bucket of a day is empty (which
only happens when the filtered set has fewer activities than days), the
day is backfilled with exactly the one cyclic-indexed activity
`activities_list[(day-1) % len]` from the full filtered list. -/
theorem plan_itinerary_backfill (l : List α) (days day : Nat)
    (hl : l ≠ []) (h1 : 1 ≤ day) (h2 : day ≤ days) :
    dayBucket l days day ≠ [] ∧
    (rawBucket l days day = [] →
      dayBucket l days day =
        [l.get ⟨(day - 1) % l.length, Nat.mod_lt _ (List.length_pos.mpr hl)⟩]) ∧
    (rawBucket l days day = [] → l.length < days) := by
  have hn : 0 < l.length := List.length_pos.mpr hl
  have hbound : (day - 1) % l.length < l.length := Nat.mod_lt _ hn
  have hback : rawBucket l days day = [] →
      dayBucket l days day =
        [l.get ⟨(day - 1) % l.length, Nat.mod_lt _ (List.length_pos.mpr hl)⟩] := by
    intro hraw
    unfold dayBucket
    rw [hraw]
    simp only [List.isEmpty_nil, if_true]
    exact pySlice_singleton l _ hbound
  refine ⟨?_, hback, ?_⟩
  · by_cases hraw : rawBucket l days day = []
    · rw [hback hraw]
      simp
    · unfold dayBucket
      have : (rawBucket l days day).isEmpty = false := by
        rw [List.isEmpty_eq_false_iff_exists_mem]
        rcases List.exists_mem_of_ne_nil _ hraw with ⟨x, hx⟩
        exact ⟨x, hx⟩
      simp only [this, if_false]
      exact hraw
  · intro hraw
    by_contra hge
    push_neg at hge
    have := rawBucket_length_full l days day (by omega) hge h1 h2
    rw [hraw] at this
    have hpos := activitiesPerDay_pos l.length days
    simp at this
    omega

/-- C9 witness: two activities over four days — the raw bucket of day 4
is empty and is backfilled with the cyclic element at index
`3 % 2 = 1`. -/
theorem plan_itinerary_backfill_witness :
    dayBucket [10, 20] 4 4 ≠ [] ∧
    (rawBucket [10, 20] 4 4 = [] →
      dayBucket [10, 20] 4 4 =
        [([10, 20] : List ℕ).get ⟨(4 - 1) % 2, by decide⟩]) ∧
    (rawBucket [10, 20] 4 4 = [] → ([10, 20] : List ℕ).length < 4) := by
  have h := plan_itinerary_backfill ([10, 20] : List ℕ) 4 4
    (by decide) (by decide) (by decide)
  exact h

/-- C1 witness (for the amended theorem): seven activities over three
days — buckets `[[0,1],[2,3],[4,5]]`, sizes all `⌊7/3⌋ = 2`,
concatenation is the first six activities. -/
theorem plan_itinerary_bucket_structure_witness :
    (rawBuckets [0, 1, 2, 3, 4, 5, 6] 3).flatten =
        ([0, 1, 2, 3, 4, 5, 6] : List ℕ).take
          (min (3 * activitiesPerDay 7 3) 7) ∧
    (∀ b ∈ rawBuckets ([0, 1, 2, 3, 4, 5, 6] : List ℕ) 3,
        b.length ≤ activitiesPerDay 7 3) ∧
    (∀ b1 ∈ rawBuckets ([0, 1, 2, 3, 4, 5, 6] : List ℕ) 3,
      ∀ b2 ∈ rawBuckets ([0, 1, 2, 3, 4, 5, 6] : List ℕ) 3,
        b1.length ≤ b2.length + 1) ∧
    ((([0, 1, 2, 3, 4, 5, 6] : List ℕ).length < 3 ∨
        ([0, 1, 2, 3, 4, 5, 6] : List ℕ).length % 3 = 0) →
      (rawBuckets ([0, 1, 2, 3, 4, 5, 6] : List ℕ) 3).flatten =
        [0, 1, 2, 3, 4, 5, 6]) := by
  have h := plan_itinerary_bucket_structure ([0, 1, 2, 3, 4, 5, 6] : List ℕ) 3
    (by decide) (by decide)
  exact h

/-! ## Budget Allocator (`optimize_budget`, recommendation_tools.py)

Python floats are modelled as `ℚ`; `0.4` etc. are written `40 / 100`
(exact rationals, following the "exactly over rationals" reading of the
spec). -/

/-- The breakdown produced by `optimize_budget` when it does not fail. -/
structure BudgetBreakdown where
  remaining : ℚ
  activity : ℚ
  food : ℚ
  accommodation : ℚ
  misc : ℚ
  activityPerDay : ℚ
  foodPerDay : ℚ
  deriving DecidableEq, Repr

/-- The allocation core of `optimize_budget`: fails with the explicit
error text when `remaining = total_budget - flight_cost` is negative,
otherwise produces the 40/30/20/10 breakdown with per-day figures
(`0` when `days ≤ 0`). -/
def optimizeBudget (totalBudget flightCost : ℚ) (days : ℤ) :
    Except String BudgetBreakdown :=
  let remaining := totalBudget - flightCost
  if remaining < 0 then
    Except.error "Error: Flight cost exceeds total budget"
  else
    let activityBudget := remaining * (40 / 100)
    let foodBudget := remaining * (30 / 100)
    let accommodationBudget := remaining * (20 / 100)
    let miscBudget := remaining * (10 / 100)
    Except.ok
      { remaining := remaining
        activity := activityBudget
        food := foodBudget
        accommodation := accommodationBudget
        misc := miscBudget
        activityPerDay := if days > 0 then activityBudget / days else 0
        foodPerDay := if days > 0 then foodBudget / days else 0 }

example :
    optimizeBudget 2000 500 5 =
      Except.ok
        { remaining := 1500, activity := 600, food := 450,
          accommodation := 300, misc := 150,
          activityPerDay := 120, foodPerDay := 90 } := by
  unfold optimizeBudget
  norm_num

/-- C3: whenever `remaining = totalBudget - flightCost ≥ 0`, the four
allocations are exactly 40%, 30%, 20% and 10% of `remaining`, and they
sum exactly to `remaining`. -/
theorem optimize_budget_split (totalBudget flightCost : ℚ) (days : ℤ)
    (h : 0 ≤ totalBudget - flightCost) :
    ∃ bd : BudgetBreakdown,
      optimizeBudget totalBudget flightCost days = Except.ok bd ∧
      bd.remaining = totalBudget - flightCost ∧
      bd.activity = bd.remaining * (40 / 100) ∧
      bd.food = bd.remaining * (30 / 100) ∧
      bd.accommodation = bd.remaining * (20 / 100) ∧
      bd.misc = bd.remaining * (10 / 100) ∧
      bd.activity + bd.food + bd.accommodation + bd.misc = bd.remaining := by
  refine ⟨{ remaining := totalBudget - flightCost
            activity := (totalBudget - flightCost) * (40 / 100)
            food := (totalBudget - flightCost) * (30 / 100)
            accommodation := (totalBudget - flightCost) * (20 / 100)
            misc := (totalBudget - flightCost) * (10 / 100)
            activityPerDay := if days > 0 then
              (totalBudget - flightCost) * (40 / 100) / days else 0
            foodPerDay := if days > 0 then
              (totalBudget - flightCost) * (30 / 100) / days else 0 },
    ?_, rfl, rfl, rfl, rfl, rfl, by ring⟩
  unfold optimizeBudget
  rw [if_neg (not_lt.mpr h)]

/-- C3 witness: scenario C of the spec — totalBudget 2000, flight 500,
5 days. -/
theorem optimize_budget_split_witness :
    0 ≤ (2000 : ℚ) - 500 ∧
    ∃ bd : BudgetBreakdown,
      optimizeBudget 2000 500 5 = Except.ok bd ∧
      bd.remaining = 2000 - 500 ∧
      bd.activity = bd.remaining * (40 / 100) ∧
      bd.food = bd.remaining * (30 / 100) ∧
      bd.accommodation = bd.remaining * (20 / 100) ∧
      bd.misc = bd.remaining * (10 / 100) ∧
      bd.activity + bd.food + bd.accommodation + bd.misc = bd.remaining :=
  ⟨by norm_num, optimize_budget_split 2000 500 5 (by norm_num)⟩

/-- C4: the allocator fails (with the explicit error text, producing no
breakdown) exactly when `remaining < 0`, i.e. when the flight cost
exceeds the total budget; for `remaining ≥ 0` (including `0`) it always
produces a breakdown. -/
theorem optimize_budget_error_iff (totalBudget flightCost : ℚ) (days : ℤ) :
    (totalBudget - flightCost < 0 →
      optimizeBudget totalBudget flightCost days =
        Except.error "Error: Flight cost exceeds total budget") ∧
    (0 ≤ totalBudget - flightCost →
      ∃ bd, optimizeBudget totalBudget flightCost days = Except.ok bd) ∧
    (∀ bd, optimizeBudget totalBudget flightCost days = Except.ok bd →
      0 ≤ totalBudget - flightCost) := by
  refine ⟨?_, ?_, ?_⟩
  · intro h
    unfold optimizeBudget
    rw [if_pos h]
  · intro h
    exact ⟨_, by unfold optimizeBudget; rw [if_neg (not_lt.mpr h)]⟩
  · intro bd hbd
    by_contra hneg
    push_neg at hneg
    unfold optimizeBudget at hbd
    rw [if_pos hneg] at hbd
    exact Except.noConfusion hbd

/-- C4 witness: scenario B — totalBudget 1000, flight 1200 fails;
remaining 0 (1000/1000) and remaining 1500 (2000/500) succeed. -/
theorem optimize_budget_error_iff_witness :
    optimizeBudget 1000 1200 3 =
      Except.error "Error: Flight cost exceeds total budget" ∧
    (∃ bd, optimizeBudget 1000 1000 3 = Except.ok bd) ∧
    (∃ bd, optimizeBudget 2000 500 5 = Except.ok bd) :=
  ⟨(optimize_budget_error_iff 1000 1200 3).1 (by norm_num),
   (optimize_budget_error_iff 1000 1000 3).2.1 (by norm_num),
   (optimize_budget_error_iff 2000 500 5).2.1 (by norm_num)⟩

/-! ## Recommendation Ranker (`get_recommendations`, recommendation_tools.py)

`rows` below is the data frame after the city / category filters. -/

/-- An activity row as consumed by `get_recommendations`. -/
structure Row where
  name : String
  category : String
  cost : ℚ
  deriving DecidableEq, Repr

/-- The score `value_score`, computed per row as
`1.0 / max(cost_usd, 1) if cost_usd > 0 else 2.0`. -/
def valueScore (cost : ℚ) : ℚ :=
  if cost > 0 then 1 / max cost 1 else 2

/-- The key order of `sort_values` by value_score and cost_usd with
ascending flags False, True: descending score, ties ascending cost. -/
def valueOrder (a b : Row) : Prop :=
  valueScore b.cost < valueScore a.cost ∨
    (valueScore a.cost = valueScore b.cost ∧ a.cost ≤ b.cost)

instance : DecidableRel valueOrder := fun a b => by
  unfold valueOrder
  infer_instance

instance : IsTotal Row valueOrder := by
  constructor
  intro a b
  unfold valueOrder
  rcases lt_trichotomy (valueScore a.cost) (valueScore b.cost) with h | h | h
  · exact Or.inr (Or.inl h)
  · rcases le_total a.cost b.cost with hc | hc
    · exact Or.inl (Or.inr ⟨h, hc⟩)
    · exact Or.inr (Or.inr ⟨h.symm, hc⟩)
  · exact Or.inl (Or.inl h)

instance : IsTrans Row valueOrder := by
  constructor
  intro a b c hab hbc
  unfold valueOrder at *
  rcases hab with h1 | ⟨h1, h2⟩ <;> rcases hbc with h3 | ⟨h3, h4⟩
  · exact Or.inl (h3.trans h1)
  · exact Or.inl (h3 ▸ h1)
  · exact Or.inl (h1 ▸ h3)
  · exact Or.inr ⟨h1.trans h3, h2.trans h4⟩

/-- The value-sorted order of the budget branch (a key-sort realising
pandas `sort_values`). -/
def sortByValue (rows : List Row) : List Row :=
  List.insertionSort valueOrder rows

/-- The budget cutoff: pandas computes `cumulative_cost = cumsum()`
over the sorted order and keeps the rows with
`cumulative_cost <= budget`; the accumulator keeps growing over dropped
rows exactly as `cumsum` does. -/
def cumFilter (b : ℚ) : ℚ → List Row → List Row
  | _, [] => []
  | acc, r :: rs =>
    if acc + r.cost ≤ b then r :: cumFilter b (acc + r.cost) rs
    else cumFilter b (acc + r.cost) rs

/-- Length of the maximal prefix whose running cost total stays within
`b` (the specification-side description of the cutoff). -/
def cutoffLen (b : ℚ) : List Row → Nat
  | [] => 0
  | r :: rs => if r.cost ≤ b then cutoffLen (b - r.cost) rs + 1 else 0

/-- Total cost of a list of rows. -/
def costSum (l : List Row) : ℚ :=
  (l.map (fun r => r.cost)).sum

/-- The budget step of `get_recommendations`: value-sort, then keep the
rows whose cumulative cost is within the budget. -/
def budgetFilter (b : ℚ) (rows : List Row) : List Row :=
  cumFilter b 0 (sortByValue rows)

theorem costSum_nil : costSum [] = 0 := rfl

theorem costSum_cons (r : Row) (l : List Row) :
    costSum (r :: l) = r.cost + costSum l := by
  unfold costSum
  simp

theorem costSum_append (l1 l2 : List Row) :
    costSum (l1 ++ l2) = costSum l1 + costSum l2 := by
  unfold costSum
  simp

theorem costSum_nonneg (l : List Row) (h : ∀ r ∈ l, 0 ≤ r.cost) :
    0 ≤ costSum l := by
  induction l with
  | nil => simp [costSum_nil]
  | cons r rs ih =>
    rw [costSum_cons]
    have h1 := h r (List.mem_cons_self r rs)
    have h2 := ih (fun x hx => h x (List.mem_cons_of_mem r hx))
    linarith

theorem cumFilter_nil_of_lt (b : ℚ) :
    ∀ (l : List Row) (acc : ℚ), (∀ r ∈ l, 0 ≤ r.cost) → b < acc →
      cumFilter b acc l = [] := by
  intro l
  induction l with
  | nil => intro acc _ _; rfl
  | cons r rs ih =>
    intro acc hc hacc
    have hr := hc r (List.mem_cons_self r rs)
    have : ¬(acc + r.cost ≤ b) := by linarith
    unfold cumFilter
    rw [if_neg this]
    exact ih (acc + r.cost) (fun x hx => hc x (List.mem_cons_of_mem r hx))
      (by linarith)

theorem cumFilter_eq_take (b : ℚ) :
    ∀ (l : List Row) (acc : ℚ), (∀ r ∈ l, 0 ≤ r.cost) →
      cumFilter b acc l = l.take (cutoffLen (b - acc) l) := by
  intro l
  induction l with
  | nil => intro acc _; rfl
  | cons r rs ih =>
    intro acc hc
    have hrs : ∀ x ∈ rs, 0 ≤ x.cost :=
      fun x hx => hc x (List.mem_cons_of_mem r hx)
    by_cases hle : acc + r.cost ≤ b
    · have hle' : r.cost ≤ b - acc := by linarith
      unfold cumFilter cutoffLen
      rw [if_pos hle, if_pos hle', List.take_succ_cons, ih (acc + r.cost) hrs]
      have harith : b - (acc + r.cost) = b - acc - r.cost := by ring
      rw [harith]
    · have hle' : ¬(r.cost ≤ b - acc) := by intro h; exact hle (by linarith)
      unfold cumFilter cutoffLen
      rw [if_neg hle, if_neg hle']
      exact cumFilter_nil_of_lt b rs (acc + r.cost) hrs (by linarith)

theorem costSum_take_cutoffLen :
    ∀ (l : List Row) (b : ℚ), 0 ≤ b → (∀ r ∈ l, 0 ≤ r.cost) →
      costSum (l.take (cutoffLen b l)) ≤ b := by
  intro l
  induction l with
  | nil => intro b hb _; simpa [cutoffLen, costSum_nil] using hb
  | cons r rs ih =>
    intro b hb hc
    have hrs : ∀ x ∈ rs, 0 ≤ x.cost :=
      fun x hx => hc x (List.mem_cons_of_mem r hx)
    unfold cutoffLen
    by_cases hle : r.cost ≤ b
    · rw [if_pos hle, List.take_succ_cons, costSum_cons]
      have hr := hc r (List.mem_cons_self r rs)
      have := ih (b - r.cost) (by linarith) hrs
      linarith
    · rw [if_neg hle]
      simpa [costSum_nil] using hb

theorem cutoffLen_maximal :
    ∀ (l : List Row) (b : ℚ) (k : Nat), (∀ r ∈ l, 0 ≤ r.cost) →
      k ≤ l.length → costSum (l.take k) ≤ b → k ≤ cutoffLen b l := by
  intro l
  induction l with
  | nil =>
    intro b k _ hk _
    simp only [List.length_nil, Nat.le_zero] at hk
    simp [hk]
  | cons r rs ih =>
    intro b k hc hk hsum
    cases k with
    | zero => exact Nat.zero_le _
    | succ m =>
      have hrs : ∀ x ∈ rs, 0 ≤ x.cost :=
        fun x hx => hc x (List.mem_cons_of_mem r hx)
      rw [List.take_succ_cons, costSum_cons] at hsum
      have htail : 0 ≤ costSum (rs.take m) :=
        costSum_nonneg _ (fun x hx => hrs x (List.mem_of_mem_take hx))
      have hrb : r.cost ≤ b := by linarith
      unfold cutoffLen
      rw [if_pos hrb]
      have := ih (b - r.cost) m hrs (by simpa using hk) (by linarith)
      omega

theorem mem_sortByValue {rows : List Row} {r : Row} :
    r ∈ sortByValue rows ↔ r ∈ rows :=
  List.mem_insertionSort _

/-- C2: with a budget, the kept set is exactly the maximal prefix of
the value-sorted order whose running cumulative cost stays within the
budget: it equals `take (cutoffLen …)` of the sorted order, every
cumulative cost of the kept rows is within the budget, any longer
prefix would overflow, and everything at or past the first overflow is
dropped. -/
theorem recommendations_budget_cutoff (rows : List Row) (b : ℚ)
    (hc : ∀ r ∈ rows, 0 ≤ r.cost) (hb : 0 ≤ b) :
    budgetFilter b rows =
        (sortByValue rows).take (cutoffLen b (sortByValue rows)) ∧
    (∀ k, costSum ((budgetFilter b rows).take k) ≤ b) ∧
    (∀ k, k ≤ (sortByValue rows).length →
      costSum ((sortByValue rows).take k) ≤ b →
      k ≤ cutoffLen b (sortByValue rows)) := by
  have hcs : ∀ r ∈ sortByValue rows, 0 ≤ r.cost :=
    fun r hr => hc r (mem_sortByValue.mp hr)
  have heq : budgetFilter b rows =
      (sortByValue rows).take (cutoffLen b (sortByValue rows)) := by
    unfold budgetFilter
    rw [cumFilter_eq_take b (sortByValue rows) 0 hcs]
    norm_num
  refine ⟨heq, ?_, fun k hk hsum => cutoffLen_maximal _ b k hcs hk hsum⟩
  intro k
  have hkept : costSum (budgetFilter b rows) ≤ b := by
    rw [heq]
    exact costSum_take_cutoffLen _ b hb hcs
  have hsplit : costSum (budgetFilter b rows) =
      costSum ((budgetFilter b rows).take k) +
        costSum ((budgetFilter b rows).drop k) := by
    rw [← costSum_append, List.take_append_drop]
  have hdrop : 0 ≤ costSum ((budgetFilter b rows).drop k) := by
    refine costSum_nonneg _ (fun r hr => ?_)
    have : r ∈ budgetFilter b rows := List.mem_of_mem_drop hr
    rw [heq] at this
    exact hcs r (List.mem_of_mem_take this)
  linarith

/-- C2 witness: rows with costs `[0, 30, 10]` and budget `35`; the
value-sorted order has costs `[0, 10, 30]`, cumulative `[0, 10, 40]`,
so exactly the first two rows are kept. -/
theorem recommendations_budget_cutoff_witness :
    budgetFilter 35 [⟨"a", "c", 0⟩, ⟨"b", "c", 30⟩, ⟨"d", "c", 10⟩] =
        (sortByValue [⟨"a", "c", 0⟩, ⟨"b", "c", 30⟩, ⟨"d", "c", 10⟩]).take
          (cutoffLen 35
            (sortByValue [⟨"a", "c", 0⟩, ⟨"b", "c", 30⟩, ⟨"d", "c", 10⟩])) ∧
    costSum ((budgetFilter 35
        [⟨"a", "c", 0⟩, ⟨"b", "c", 30⟩, ⟨"d", "c", 10⟩]).take 2) ≤ 35 ∧
    2 ≤ cutoffLen 35
        (sortByValue [⟨"a", "c", 0⟩, ⟨"b", "c", 30⟩, ⟨"d", "c", 10⟩]) := by
  have hsort : sortByValue [⟨"a", "c", 0⟩, ⟨"b", "c", 30⟩, ⟨"d", "c", 10⟩] =
      [⟨"a", "c", 0⟩, ⟨"d", "c", 10⟩, ⟨"b", "c", 30⟩] := by
    norm_num [sortByValue, List.insertionSort, List.orderedInsert, valueOrder,
      valueScore, max_def]
  have h := recommendations_budget_cutoff
    [⟨"a", "c", 0⟩, ⟨"b", "c", 30⟩, ⟨"d", "c", 10⟩] 35
    (by decide) (by norm_num)
  refine ⟨h.1, h.2.1 2, h.2.2 2 ?_ ?_⟩
  · rw [hsort]
    decide
  · rw [hsort]
    norm_num [costSum]

theorem valueScore_le_two (c : ℚ) : valueScore c ≤ 2 := by
  unfold valueScore
  by_cases hc : c > 0
  · rw [if_pos hc]
    have h1 : (1 : ℚ) ≤ max c 1 := le_max_right c 1
    have h2 : (0 : ℚ) < max c 1 := by linarith
    have := (div_le_one h2).mpr h1
    linarith
  · rw [if_neg hc]

/-- C8: the value score is `2` for free rows and `1 / max(cost, 1)` for
paid rows; the sort of the budget branch is a permutation of its input,
sorted by descending score with ties broken ascending by cost; hence in
the value-sorted order no paid row ever precedes a free row. -/
theorem recommendations_value_sort (rows : List Row)
    (hc : ∀ r ∈ rows, 0 ≤ r.cost) :
    (∀ c : ℚ, c = 0 → valueScore c = 2) ∧
    (∀ c : ℚ, 0 < c → valueScore c = 1 / max c 1) ∧
    List.Sorted valueOrder (sortByValue rows) ∧
    (sortByValue rows).Perm rows ∧
    List.Pairwise (fun a b => b.cost = 0 → a.cost = 0) (sortByValue rows) := by
  refine ⟨?_, ?_, List.sorted_insertionSort valueOrder rows,
    List.perm_insertionSort valueOrder rows, ?_⟩
  · intro c hc0
    unfold valueScore
    rw [hc0]
    norm_num
  · intro c hc0
    unfold valueScore
    rw [if_pos hc0]
  · have hs : List.Pairwise valueOrder (sortByValue rows) :=
      List.sorted_insertionSort valueOrder rows
    refine hs.imp_of_mem ?_
    intro a b ha hb hab hb0
    rcases hab with h1 | ⟨_, h2⟩
    · exfalso
      have hbscore : valueScore b.cost = 2 := by
        unfold valueScore
        rw [hb0]
        norm_num
      rw [hbscore] at h1
      have := valueScore_le_two a.cost
      linarith
    · have hanneg : 0 ≤ a.cost := hc a (mem_sortByValue.mp ha)
      rw [hb0] at h2
      linarith

/-- C8 witness: rows with costs `[30, 0, 10]` sort to costs
`[0, 10, 30]`: free first, sorted and a permutation. -/
theorem recommendations_value_sort_witness :
    (∀ c : ℚ, c = 0 → valueScore c = 2) ∧
    (∀ c : ℚ, 0 < c → valueScore c = 1 / max c 1) ∧
    List.Sorted valueOrder
      (sortByValue [⟨"a", "c", 30⟩, ⟨"b", "c", 0⟩, ⟨"d", "c", 10⟩]) ∧
    (sortByValue [⟨"a", "c", 30⟩, ⟨"b", "c", 0⟩, ⟨"d", "c", 10⟩]).Perm
      [⟨"a", "c", 30⟩, ⟨"b", "c", 0⟩, ⟨"d", "c", 10⟩] ∧
    List.Pairwise (fun a b => b.cost = 0 → a.cost = 0)
      (sortByValue [⟨"a", "c", 30⟩, ⟨"b", "c", 0⟩, ⟨"d", "c", 10⟩]) :=
  recommendations_value_sort
    [⟨"a", "c", 30⟩, ⟨"b", "c", 0⟩, ⟨"d", "c", 10⟩] (by decide)

/-- Python truthiness of the optional `budget` float as tested by
`if budget:` — `None` and `0.0` are falsy, any non-zero float is
truthy. -/
def budgetTruthy : Option ℚ → Bool
  | none => false
  | some b => decide (b ≠ 0)

/-- The key order of the display re-sort: `sort_values` by cost_usd
then category, both ascending. -/
def displayOrder (a b : Row) : Prop :=
  a.cost < b.cost ∨ (a.cost = b.cost ∧ a.category ≤ b.category)

instance : DecidableRel displayOrder := fun a b => by
  unfold displayOrder
  infer_instance

/-- The display sort of `get_recommendations` (a key-sort realising
pandas `sort_values`). -/
def sortForDisplay (rows : List Row) : List Row :=
  List.insertionSort displayOrder rows

/-- The observable output of `get_recommendations`: the heading line,
the displayed rows, their summed cost, and whether the overage warning
is attached. -/
structure RecOutput where
  heading : String
  shown : List Row
  totalShownCost : ℚ
  overageWarning : Bool
  deriving DecidableEq, Repr

/-- Embedding of `get_recommendations` after the city/category
filters: the budget
branch (`if budget:` — value-sort plus cumulative-cost cutoff), the
display re-sort, the head-10 display window, the displayed-cost total,
and the overage warning (`if budget and total_cost > budget`). -/
def getRecommendations (rows : List Row) (budget : Option ℚ) : RecOutput :=
  let survivors :=
    if budgetTruthy budget then budgetFilter (budget.getD 0) rows else rows
  let top := (sortForDisplay survivors).take 10
  let totalCost := costSum top
  { heading :=
      if budgetTruthy budget then
        "Budget-Conscious Recommendations (within $" ++
          toString (budget.getD 0) ++ " USD):"
      else "Top Recommendations:"
    shown := top
    totalShownCost := totalCost
    overageWarning := budgetTruthy budget && decide (budget.getD 0 < totalCost) }

/-- C10: `budget = 0` is falsy in `if budget:`, so `get_recommendations`
with a zero budget behaves exactly as with no budget at all — identical
output, the plain "Top Recommendations:" heading, the uncut display of
the filtered rows, and no overage warning. -/
theorem recommendations_budget_zero (rows : List Row) :
    getRecommendations rows (some 0) = getRecommendations rows none ∧
    (getRecommendations rows (some 0)).heading = "Top Recommendations:" ∧
    (getRecommendations rows (some 0)).shown =
      (sortForDisplay rows).take 10 ∧
    (getRecommendations rows (some 0)).overageWarning = false := by
  unfold getRecommendations budgetTruthy
  norm_num

/-! ## Route Optimizer (`optimize_route`, itinerary_tools.py) -/

/-- The fixed category priority list of `optimize_route`. -/
def categoryOrder : List String :=
  ["cultura", "aventura", "gastronomia", "deportes", "entretenimiento"]

/-- The per-category passes of `optimize_route`: for each category of
`order`, in order, all activities of exactly that category
(exact equality on the category field) in original relative order. -/
def groupedByCats (order : List String) (acts : List Row) : List Row :=
  (order.map (fun c => acts.filter (fun a => a.category == c))).flatten

/-- Embedding of `optimize_route`: the category passes over the fixed
priority list,
then the remaining activities (`a not in sorted_activities`) in their
original order. The `city` argument is accepted and unused, as in the
source. -/
def optimizeRoute (acts : List Row) (_city : String) : List Row :=
  groupedByCats categoryOrder acts ++
    acts.filter (fun a => decide (a ∉ groupedByCats categoryOrder acts))

theorem mem_groupedByCats {order : List String} {acts : List Row} {a : Row} :
    a ∈ groupedByCats order acts ↔ a ∈ acts ∧ a.category ∈ order := by
  unfold groupedByCats
  simp only [List.mem_flatten, List.mem_map]
  constructor
  · rintro ⟨l, ⟨c, hc, rfl⟩, hal⟩
    rcases List.mem_filter.mp hal with ⟨ha, hcat⟩
    rw [beq_iff_eq] at hcat
    exact ⟨ha, hcat ▸ hc⟩
  · rintro ⟨ha, hcat⟩
    exact ⟨_, ⟨a.category, hcat, rfl⟩,
      List.mem_filter.mpr ⟨ha, by rw [beq_iff_eq]⟩⟩

theorem optimizeRoute_remaining (acts : List Row) :
    acts.filter (fun a => decide (a ∉ groupedByCats categoryOrder acts)) =
      acts.filter (fun a => decide (a.category ∉ categoryOrder)) := by
  refine List.filter_congr (fun a ha => ?_)
  simp only [decide_eq_decide]
  rw [mem_groupedByCats]
  tauto

theorem groupedByCats_perm :
    ∀ (order : List String), order.Nodup → ∀ (acts : List Row),
      (groupedByCats order acts ++
        acts.filter (fun a => decide (a.category ∉ order))).Perm acts := by
  intro order
  induction order with
  | nil =>
    intro _ acts
    unfold groupedByCats
    simp
  | cons c cs ih =>
    intro hnd acts
    rcases List.nodup_cons.mp hnd with ⟨hc, hcs⟩
    unfold groupedByCats
    rw [List.map_cons, List.flatten_cons]
    have h1 : cs.map (fun c' => acts.filter (fun a => a.category == c')) =
        cs.map (fun c' => (acts.filter (fun a => !(a.category == c))).filter
          (fun a => a.category == c')) := by
      refine List.map_congr_left (fun c' hc' => ?_)
      rw [List.filter_filter]
      refine (List.filter_congr (fun a _ => ?_)).symm
      by_cases h : a.category = c'
      · have hcc : c' ≠ c := fun hq => hc (hq ▸ hc')
        have hne : a.category ≠ c := by
          rw [h]
          exact hcc
        simp [h, hne, hcc]
      · simp [h]
    have h2 : acts.filter (fun a => decide (a.category ∉ c :: cs)) =
        (acts.filter (fun a => !(a.category == c))).filter
          (fun a => decide (a.category ∉ cs)) := by
      rw [List.filter_filter]
      refine List.filter_congr (fun a _ => ?_)
      by_cases h : a.category = c
      · simp [h]
      · simp [h, List.mem_cons]
    rw [h1, h2, List.append_assoc]
    have hperm := ih hcs (acts.filter (fun a => !(a.category == c)))
    unfold groupedByCats at hperm
    refine ((hperm.append_left _).trans ?_)
    exact List.filter_append_perm (fun a => a.category == c) acts

theorem filter_groupedByCats_not_mem (cs : List String) (acts : List Row)
    (c : String) (hc : c ∉ cs) :
    (groupedByCats cs acts).filter (fun a => a.category == c) = [] := by
  refine List.filter_eq_nil_iff.mpr (fun a ha => ?_)
  rcases mem_groupedByCats.mp ha with ⟨_, hcat⟩
  intro hbeq
  rw [beq_iff_eq] at hbeq
  exact hc (hbeq ▸ hcat)

theorem filter_groupedByCats_mem :
    ∀ (order : List String), order.Nodup → ∀ (acts : List Row) (c : String),
      c ∈ order →
      (groupedByCats order acts).filter (fun a => a.category == c) =
        acts.filter (fun a => a.category == c) := by
  intro order
  induction order with
  | nil =>
    intro _ _ c hc
    exact absurd hc (List.not_mem_nil c)
  | cons c' cs ih =>
    intro hnd acts c hc
    rcases List.nodup_cons.mp hnd with ⟨hc', hcs⟩
    unfold groupedByCats
    rw [List.map_cons, List.flatten_cons, List.filter_append]
    rcases List.mem_cons.mp hc with rfl | hmem
    · have hA : (acts.filter (fun a => a.category == c)).filter
          (fun a => a.category == c) = acts.filter (fun a => a.category == c) := by
        rw [List.filter_filter]
        refine List.filter_congr (fun a _ => ?_)
        by_cases h : a.category = c <;> simp [h]
      have hB := filter_groupedByCats_not_mem cs acts c hc'
      unfold groupedByCats at hB
      rw [hA, hB, List.append_nil]
    · have hne : c ≠ c' := fun h => hc' (h ▸ hmem)
      have hA : (acts.filter (fun a => a.category == c')).filter
          (fun a => a.category == c) = [] := by
        refine List.filter_eq_nil_iff.mpr (fun a ha => ?_)
        rcases List.mem_filter.mp ha with ⟨_, h1⟩
        rw [beq_iff_eq] at h1
        intro h2
        rw [beq_iff_eq] at h2
        exact hne (h2 ▸ h1 ▸ rfl)
      have hB := ih hcs acts c hmem
      unfold groupedByCats at hB
      rw [hA, hB, List.nil_append]

/-- C5: `optimize_route` returns a permutation of its input — all
activities of each priority-list category are emitted per category in
priority order with their original relative order preserved (the
restriction of the output to each listed category equals that of the
input), and
the activities of unmatched categories appear last, in their original
relative order. -/
theorem optimize_route_permutation (acts : List Row) (city : String) :
    (optimizeRoute acts city).Perm acts ∧
    optimizeRoute acts city = groupedByCats categoryOrder acts ++
      acts.filter (fun a => decide (a.category ∉ categoryOrder)) ∧
    (∀ a ∈ groupedByCats categoryOrder acts, a.category ∈ categoryOrder) ∧
    (∀ c ∈ categoryOrder,
      (optimizeRoute acts city).filter (fun a => a.category == c) =
        acts.filter (fun a => a.category == c)) ∧
    (optimizeRoute acts city).filter
        (fun a => decide (a.category ∉ categoryOrder)) =
      acts.filter (fun a => decide (a.category ∉ categoryOrder)) := by
  have hnd : categoryOrder.Nodup := by decide
  have hdecomp : optimizeRoute acts city = groupedByCats categoryOrder acts ++
      acts.filter (fun a => decide (a.category ∉ categoryOrder)) := by
    unfold optimizeRoute
    rw [optimizeRoute_remaining]
  refine ⟨?_, hdecomp, fun a ha => (mem_groupedByCats.mp ha).2, ?_, ?_⟩
  · rw [hdecomp]
    exact groupedByCats_perm categoryOrder hnd acts
  · intro c hcmem
    rw [hdecomp, List.filter_append,
      filter_groupedByCats_mem categoryOrder hnd acts c hcmem]
    have hnil : (acts.filter
        (fun a => decide (a.category ∉ categoryOrder))).filter
          (fun a => a.category == c) = [] := by
      refine List.filter_eq_nil_iff.mpr (fun a ha => ?_)
      rcases List.mem_filter.mp ha with ⟨_, h1⟩
      rw [decide_eq_true_eq] at h1
      intro h2
      rw [beq_iff_eq] at h2
      exact h1 (h2 ▸ hcmem)
    rw [hnil, List.append_nil]
  · rw [hdecomp, List.filter_append]
    have hnil : (groupedByCats categoryOrder acts).filter
        (fun a => decide (a.category ∉ categoryOrder)) = [] := by
      refine List.filter_eq_nil_iff.mpr (fun a ha => ?_)
      rcases mem_groupedByCats.mp ha with ⟨_, hcat⟩
      simp [hcat]
    have hid : (acts.filter
        (fun a => decide (a.category ∉ categoryOrder))).filter
          (fun a => decide (a.category ∉ categoryOrder)) =
        acts.filter (fun a => decide (a.category ∉ categoryOrder)) := by
      rw [List.filter_filter]
      refine List.filter_congr (fun a _ => ?_)
      by_cases h : a.category ∈ categoryOrder <;> simp [h]
    rw [hnil, hid, List.nil_append]

example :
    optimizeRoute
      [⟨"tango", "entretenimiento", 20⟩, ⟨"museo", "cultura", 5⟩,
        ⟨"spa", "bienestar", 50⟩, ⟨"teatro", "cultura", 15⟩] "x" =
      [⟨"museo", "cultura", 5⟩, ⟨"teatro", "cultura", 15⟩,
        ⟨"tango", "entretenimiento", 20⟩, ⟨"spa", "bienestar", 50⟩] := by
  decide

/-- C5 witness: a concrete four-activity list — the reordering is a
permutation and the cultura bucket keeps its original relative order. -/
theorem optimize_route_permutation_witness :
    (optimizeRoute
        [⟨"tango", "entretenimiento", 20⟩, ⟨"museo", "cultura", 5⟩,
          ⟨"spa", "bienestar", 50⟩, ⟨"teatro", "cultura", 15⟩] "Madrid").Perm
      [⟨"tango", "entretenimiento", 20⟩, ⟨"museo", "cultura", 5⟩,
        ⟨"spa", "bienestar", 50⟩, ⟨"teatro", "cultura", 15⟩] ∧
    (optimizeRoute
        [⟨"tango", "entretenimiento", 20⟩, ⟨"museo", "cultura", 5⟩,
          ⟨"spa", "bienestar", 50⟩, ⟨"teatro", "cultura", 15⟩]
        "Madrid").filter (fun a => a.category == "cultura") =
      ([⟨"tango", "entretenimiento", 20⟩, ⟨"museo", "cultura", 5⟩,
        ⟨"spa", "bienestar", 50⟩, ⟨"teatro", "cultura", 15⟩] :
          List Row).filter (fun a => a.category == "cultura") :=
  ⟨(optimize_route_permutation
      [⟨"tango", "entretenimiento", 20⟩, ⟨"museo", "cultura", 5⟩,
        ⟨"spa", "bienestar", 50⟩, ⟨"teatro", "cultura", 15⟩] "Madrid").1,
   (optimize_route_permutation
      [⟨"tango", "entretenimiento", 20⟩, ⟨"museo", "cultura", 5⟩,
        ⟨"spa", "bienestar", 50⟩, ⟨"teatro", "cultura", 15⟩]
      "Madrid").2.2.2.1 "cultura" (by decide)⟩

/-! ## Dispatcher capability wrappers (supervisor.py) -/

/-- A message returned by a worker agent; `content` is `none` when the
message object has no `content` attribute. -/
structure AgentMessage where
  content : Option String
  deriving DecidableEq, Repr

/-- The result of `agent.invoke(...)`: its `messages` list and its
`str(result)` rendering. -/
structure InvokeResult where
  messages : List AgentMessage
  asString : String
  deriving DecidableEq, Repr

/-- The shared `try:` body of the four capability wrappers after a
successful invoke: the `content` of the last message when present, else
`str(result)`. -/
def extractContent (r : InvokeResult) : String :=
  match r.messages.getLast? with
  | some m =>
    match m.content with
    | some c => c
    | none => r.asString
  | none => r.asString

/-- A capability wrapper (`call_flight_agent`, `call_activity_agent`,
`call_weather_agent`, `call_budget_agent`). The whole `try:` body —
worker lookup plus `agent.invoke` — is modelled by its outcome, an
`Except` whose `error` carries `str(e)` of a thrown exception; the
`except Exception` clause maps it to the error-string tool result. -/
def callAgentTool (workerName : String)
    (outcome : Except String InvokeResult) : String :=
  match outcome with
  | Except.ok r => extractContent r
  | Except.error e => "Error in " ++ workerName ++ ": " ++ e

/-- Wrapper `call_flight_agent`. -/
def callFlightAgent : Except String InvokeResult → String :=
  callAgentTool "flight agent"

/-- Wrapper `call_activity_agent`. -/
def callActivityAgent : Except String InvokeResult → String :=
  callAgentTool "activity agent"

/-- Wrapper `call_weather_agent`. -/
def callWeatherAgent : Except String InvokeResult → String :=
  callAgentTool "weather agent"

/-- Wrapper `call_budget_agent`. -/
def callBudgetAgent : Except String InvokeResult → String :=
  callAgentTool "budget agent"

/-- C6: any exception thrown inside a worker invocation is caught by
the wrapper, which returns the string "Error in <worker>: <detail>" as
the tool result instead of propagating — so a worker failure is fed
back to the oracle as text and never aborts the dispatch loop. -/
theorem dispatcher_catches_worker_failure (e : String) :
    callFlightAgent (Except.error e) = "Error in flight agent: " ++ e ∧
    callActivityAgent (Except.error e) = "Error in activity agent: " ++ e ∧
    callWeatherAgent (Except.error e) = "Error in weather agent: " ++ e ∧
    callBudgetAgent (Except.error e) = "Error in budget agent: " ++ e :=
  ⟨rfl, rfl, rfl, rfl⟩

/-! ## Worker Registry (lazy module-global agents, supervisor.py)

`_get_flight_agent` (and its three siblings) is
`if _flight_agent is None: _flight_agent = create_flight_agent()`
followed by `return _flight_agent`, with no lock around the
check-and-set. Worker instances are numbered by creation order so that
reference identity is instance-id equality. -/

/-- The module-global state for one worker kind: the cached instance
(`_flight_agent` etc.), a counter supplying fresh instance identities,
and how many times the constructor (`create_*_agent`) has run. -/
structure RegState where
  cache : Option Nat
  nextId : Nat
  constructions : Nat
  deriving DecidableEq, Repr

/-- Initial module state: `_flight_agent = None`. -/
def regInit : RegState := { cache := none, nextId := 0, constructions := 0 }

/-- Embedding of `_get_flight_agent()` run atomically (sequential
semantics). -/
def getAgentSeq (s : RegState) : Nat × RegState :=
  match s.cache with
  | some a => (a, s)
  | none =>
    (s.nextId,
      { cache := some s.nextId, nextId := s.nextId + 1,
        constructions := s.constructions + 1 })

/-- Program counter of one thread inside `_get_flight_agent`: the
`is None` check, the construct-and-assign, the `return _flight_agent`
(which re-reads the global), and completion. -/
inductive ThreadPC
  | check
  | construct
  | ret
  | done
  deriving DecidableEq, Repr

/-- One thread running `_get_flight_agent`: its position and, once
done, the instance it returned. -/
structure Thread where
  pc : ThreadPC
  result : Option Nat
  deriving DecidableEq, Repr

/-- One atomic step of a thread against the shared module state. There
is no lock in the source, so steps of different threads interleave
freely. -/
def stepThread (s : RegState) (t : Thread) : RegState × Thread :=
  match t.pc with
  | ThreadPC.check =>
    match s.cache with
    | some _ => (s, { t with pc := ThreadPC.ret })
    | none => (s, { t with pc := ThreadPC.construct })
  | ThreadPC.construct =>
    ({ cache := some s.nextId, nextId := s.nextId + 1,
       constructions := s.constructions + 1 },
     { t with pc := ThreadPC.ret })
  | ThreadPC.ret => (s, { pc := ThreadPC.done, result := s.cache })
  | ThreadPC.done => (s, t)

/-- Two threads concurrently calling `_get_flight_agent` for the first
time, plus the shared module state. -/
structure SysState where
  reg : RegState
  t1 : Thread
  t2 : Thread
  deriving DecidableEq, Repr

/-- Both threads at the `is None` check, module state fresh. -/
def sysInit : SysState :=
  { reg := regInit
    t1 := { pc := ThreadPC.check, result := none }
    t2 := { pc := ThreadPC.check, result := none } }

/-- Run an interleaving: `true` steps thread 1, `false` thread 2. -/
def runSchedule : List Bool → SysState → SysState
  | [], s => s
  | b :: rest, s =>
    if b then
      let p := stepThread s.reg s.t1
      runSchedule rest { s with reg := p.1, t1 := p.2 }
    else
      let p := stepThread s.reg s.t2
      runSchedule rest { s with reg := p.1, t2 := p.2 }

/-- C7: counterexample — there is no mutual exclusion around the
check-and-set, and under the interleaving check₁, check₂, construct₁,
return₁, construct₂, return₂ both first-time callers construct: two
worker instances are created and the two calls return instances that
are not reference-identical. -/
theorem registry_race_counterexample :
    (runSchedule [true, false, true, true, false, false] sysInit).t1.pc =
        ThreadPC.done ∧
    (runSchedule [true, false, true, true, false, false] sysInit).t2.pc =
        ThreadPC.done ∧
    (runSchedule [true, false, true, true, false, false]
        sysInit).reg.constructions = 2 ∧
    (runSchedule [true, false, true, true, false, false] sysInit).t1.result ≠
      (runSchedule [true, false, true, true, false, false] sysInit).t2.result := by
  decide

/-- C7 (amended): `get` returns the cached instance unchanged when one
exists, and otherwise constructs exactly once, caches the new instance
and returns it — so under sequential access repeated calls return the
identical instance and construction happens at most once; but the
construct-once guarantee holds only sequentially, since the source
takes no lock. -/
theorem registry_get_sequential (s : RegState) :
    (∀ a, s.cache = some a → getAgentSeq s = (a, s)) ∧
    (s.cache = none →
      (getAgentSeq s).2.constructions = s.constructions + 1 ∧
      (getAgentSeq s).2.cache = some (getAgentSeq s).1) ∧
    (getAgentSeq (getAgentSeq s).2).1 = (getAgentSeq s).1 ∧
    (getAgentSeq (getAgentSeq s).2).2 = (getAgentSeq s).2 := by
  refine ⟨?_, ?_, ?_, ?_⟩
  · intro a ha
    simp [getAgentSeq, ha]
  · intro hn
    simp [getAgentSeq, hn]
  · cases hc : s.cache <;> simp [getAgentSeq, hc]
  · cases hc : s.cache <;> simp [getAgentSeq, hc]

/-- C7 witness for the amended sequential guarantee: a cached state is
returned unchanged; from the fresh state one construction happens and a
second call returns the same instance. -/
theorem registry_get_sequential_witness :
    getAgentSeq { cache := some 7, nextId := 8, constructions := 1 } =
      (7, { cache := some 7, nextId := 8, constructions := 1 }) ∧
    (getAgentSeq regInit).2.constructions = regInit.constructions + 1 ∧
    (getAgentSeq (getAgentSeq regInit).2).1 = (getAgentSeq regInit).1 :=
  ⟨(registry_get_sequential
      { cache := some 7, nextId := 8, constructions := 1 }).1 7 rfl,
   ((registry_get_sequential regInit).2.1 rfl).1,
   (registry_get_sequential regInit).2.2.1⟩

end TrippyAI
